import Mathlib

/-!
Verification of the CoT mapping system's ingestion pipeline
(`cot-mapping-system/main.py`, `email_processor.py`, `models.py`,
`database.py`) against its natural-language specification.

Shallow embedding conventions:
* A pandas cell is `Option String`; `none` models NaN/None (empty Excel
  cells parse to NaN, and `Series.get` on an absent column returns None,
  which `pd.isna` also treats as missing).
* The ORM session is created with `autoflush=False` (database.py line 17),
  so queries issued inside a batch see only records committed before the
  batch; objects pending via `db.add` are invisible to queries.  Records
  returned by a query are mutated in place (an update), while new objects
  accumulate in a pending list flushed at `db.commit()`.
* SQL equality semantics: a comparison against NULL/NaN never matches,
  so a key lookup with a missing component finds nothing.
* Timestamp columns (`processed_date`, `created_at`, `updated_at`) are not
  modelled: no claim depends on them.
-/

namespace CoT

/-! ## Definitions: the shallow embedding and concrete instances -/

/-- A spreadsheet cell / nullable column value; `none` is NaN/NULL. -/
abbrev Cell := Option String

/-- One row of the `cot_mappings` table (models.CoTMapping). -/
structure MappingRecord where
  ic_channel : Cell
  ic_cot : Cell
  new_channel : Cell
  new_cot : Cell
  notes : Cell
  source_file : String
  is_new_channel : Bool
  is_new_cot : Bool
deriving Repr, DecidableEq, Inhabited

/-- A parsed spreadsheet: column names plus rows of cells (pandas DataFrame). -/
structure DFrame where
  cols : List String
  data : List (List Cell)
deriving Repr, DecidableEq

/-- Python `str.lower()` (ASCII range, enough for the header aliases). -/
def pyLower (s : String) : String := String.mk (s.data.map Char.toLower)

/-- Python `str.strip()`: drop leading and trailing whitespace. -/
def pyStrip (s : String) : String :=
  String.mk
    (((s.data.dropWhile Char.isWhitespace).reverse.dropWhile
        Char.isWhitespace).reverse)

/-- Column cleaning applied by both ingestion paths:
`df.columns.str.strip().str.lower()` followed by the alias rename map
`{'ic channel': 'ic_channel', 'ic cot': 'ic_cot', 'new channel':
'new_channel', 'new cot': 'new_cot', 'notes': 'notes'}`. -/
def normalizeCol (c : String) : String :=
  let s := pyLower (pyStrip c)
  if s = "ic channel" then "ic_channel"
  else if s = "ic cot" then "ic_cot"
  else if s = "new channel" then "new_channel"
  else if s = "new cot" then "new_cot"
  else s

/-- The normalized column list of a frame. -/
def normCols (df : DFrame) : List String := df.cols.map normalizeCol

/-- Pandas `row.get(c)`: the cell under column `c`, or None when
the column is absent. -/
def rowGet (cols : List String) (r : List Cell) (c : String) : Cell :=
  match cols.findIdx? (fun x => x == c) with
  | some i => r.getD i none
  | none => none

/-- SQL-style equality used by the ORM key lookup: NULL/NaN never
compares equal to anything. -/
def sqlEq : Cell → Cell → Bool
  | some a, some b => a == b
  | _, _ => false

/-- The `filter(CoTMapping.ic_channel == c, CoTMapping.ic_cot == t)`
predicate of the upsert lookup. -/
def keyMatches (m : MappingRecord) (c t : Cell) : Bool :=
  sqlEq m.ic_channel c && sqlEq m.ic_cot t

/-- Identity key of a row, as read by the upsert. -/
def rowKey (cols : List String) (r : List Cell) : Cell × Cell :=
  (rowGet cols r "ic_channel", rowGet cols r "ic_cot")

/-- Both identity components present (a row the upload path does not skip). -/
def validKey (k : Cell × Cell) : Bool := k.1.isSome && k.2.isSome

/-- Distinct non-null `new_channel` values persisted in the store
(`db.query(CoTMapping.new_channel).distinct()`, Nones dropped). -/
def existingNewChannels (store : List MappingRecord) : List String :=
  (store.filterMap (fun m => m.new_channel)).dedup

/-- Distinct non-null `new_cot` values persisted in the store. -/
def existingNewCots (store : List MappingRecord) : List String :=
  (store.filterMap (fun m => m.new_cot)).dedup

/-- The set `df[c].dropna().unique()`: distinct non-null values of column `c`
in the batch. -/
def fileValues (cols : List String) (data : List (List Cell)) (c : String) :
    List String :=
  (data.filterMap (fun r => rowGet cols r c)).dedup

/-- Result of `identify_new_items` / `_identify_new_items`. -/
structure NewItems where
  new_channels : List String
  new_cots : List String
deriving Repr, DecidableEq

/-- Embeds `CoTProcessor.identify_new_items` (identical to
`EmailProcessor._identify_new_items`): batch values minus persisted
history, per field. -/
def identify_new_items (cols : List String) (data : List (List Cell))
    (store : List MappingRecord) : NewItems :=
  { new_channels := (fileValues cols data "new_channel").filter
      (fun v => !(existingNewChannels store).contains v),
    new_cots := (fileValues cols data "new_cot").filter
      (fun v => !(existingNewCots store).contains v) }

/-- The check `row.get('new_channel') in new_items['new_channels']`: Python `in`
against a NaN-free list is False for NaN. -/
def noveltyFlag (ni : List String) : Cell → Bool
  | some v => ni.contains v
  | none => false

/-- ORM session state during one batch: `base` is the committed table
(whose loaded rows are mutated in place by updates), `pending` the
`db.add`-ed objects invisible to queries because autoflush is off. -/
structure SessionSt where
  base : List MappingRecord
  pending : List MappingRecord
  inserted : Nat
  updated : Nat
  skipped : Nat
deriving Repr, DecidableEq

/-- Mutate the first record matching `p` (what assigning to the object
returned by `.first()` does). -/
def updateFirst (p : MappingRecord → Bool) (f : MappingRecord → MappingRecord) :
    List MappingRecord → List MappingRecord
  | [] => []
  | r :: rs => if p r then f r :: rs else r :: updateFirst p f rs

/-- The record built by the `CoTMapping(...)` constructor call on insert. -/
def mkRecord (ni : NewItems) (src : String) (c t nc ncot nts : Cell) :
    MappingRecord :=
  { ic_channel := c, ic_cot := t, new_channel := nc, new_cot := ncot,
    notes := nts, source_file := src,
    is_new_channel := noveltyFlag ni.new_channels nc,
    is_new_cot := noveltyFlag ni.new_cots ncot }

/-- The field assignments performed on an existing record (update branch). -/
def overwriteRecord (ni : NewItems) (src : String) (nc ncot nts : Cell)
    (m : MappingRecord) : MappingRecord :=
  { m with
    new_channel := nc, new_cot := ncot, notes := nts,
    source_file := src,
    is_new_channel := noveltyFlag ni.new_channels nc,
    is_new_cot := noveltyFlag ni.new_cots ncot }

/-- The shared upsert body of both row loops: query the committed table by
identity key, update the first match in place, otherwise add a new record. -/
def upsertRow (ni : NewItems) (src : String) (cols : List String)
    (st : SessionSt) (r : List Cell) : SessionSt :=
  let c := rowGet cols r "ic_channel"
  let t := rowGet cols r "ic_cot"
  let nc := rowGet cols r "new_channel"
  let ncot := rowGet cols r "new_cot"
  let nts := rowGet cols r "notes"
  if st.base.any (fun m => keyMatches m c t) then
    { st with
      base := updateFirst (fun m => keyMatches m c t)
        (overwriteRecord ni src nc ncot nts) st.base,
      updated := st.updated + 1 }
  else
    { st with
      pending := st.pending ++ [mkRecord ni src c t nc ncot nts],
      inserted := st.inserted + 1 }

/-- The skip test of the upload row loop:
`pd.isna(row.get('ic_channel')) or pd.isna(row.get('ic_cot'))`. -/
def missingKey (cols : List String) (r : List Cell) : Bool :=
  (rowGet cols r "ic_channel").isNone || (rowGet cols r "ic_cot").isNone

/-- One loop iteration of `CoTProcessor.process_excel_data`: rows whose
identity key has a missing component are skipped and counted. -/
def processRowUpload (ni : NewItems) (src : String) (cols : List String)
    (st : SessionSt) (r : List Cell) : SessionSt :=
  if missingKey cols r then { st with skipped := st.skipped + 1 }
  else upsertRow ni src cols st r

/-- One loop iteration of `EmailProcessor._process_cot_data`: no skip
check, every row is upserted. -/
def processRowEmail (ni : NewItems) (src : String) (cols : List String)
    (st : SessionSt) (r : List Cell) : SessionSt :=
  upsertRow ni src cols st r

/-- The table contents flushed by `db.commit()` at the end of a batch. -/
def sessionStore (st : SessionSt) : List MappingRecord := st.base ++ st.pending

/-- Fresh session over a committed store. -/
def initSt (store : List MappingRecord) : SessionSt :=
  { base := store, pending := [], inserted := 0, updated := 0, skipped := 0 }

/-- The result dictionary returned by `process_excel_data`. -/
structure IngestResult where
  total_records : Nat
  records_inserted : Nat
  records_updated : Nat
  records_skipped : Nat
  new_channels_found : Nat
  new_cots_found : Nat
  new_channels : List String
  new_cots : List String
deriving Repr, DecidableEq, Inhabited

/-- The result dictionary returned by `_process_cot_data`; it has no
skipped counter. -/
structure EmailIngestResult where
  total_records : Nat
  records_inserted : Nat
  records_updated : Nat
  new_channels_found : Nat
  new_cots_found : Nat
  new_channels : List String
  new_cots : List String
deriving Repr, DecidableEq, Inhabited

/-- The `required_columns` list of the upload path validation. -/
def requiredColumns : List String :=
  ["ic_channel", "ic_cot", "new_channel", "new_cot"]

/-- Embeds `CoTProcessor.process_excel_data`: normalize columns, validate,
compute novelty once against the pre-batch store, then upsert row by row;
an `Except.error` is the `ValueError` naming the missing columns. -/
def process_excel_data (df : DFrame) (source_file : String)
    (store : List MappingRecord) :
    Except (List String) (IngestResult × List MappingRecord) :=
  let cols := normCols df
  let missing := requiredColumns.filter (fun c => !cols.contains c)
  if missing.isEmpty then
    let ni := identify_new_items cols df.data store
    let st := df.data.foldl (processRowUpload ni source_file cols) (initSt store)
    .ok ({ total_records := df.data.length,
           records_inserted := st.inserted,
           records_updated := st.updated,
           records_skipped := st.skipped,
           new_channels_found := ni.new_channels.length,
           new_cots_found := ni.new_cots.length,
           new_channels := ni.new_channels,
           new_cots := ni.new_cots }, sessionStore st)
  else .error missing

/-- Embeds `EmailProcessor._process_cot_data`: no column validation; the first
column access in `_identify_new_items` (`df['new_channel']`, then
`df['new_cot']`) raises a KeyError when absent, before any upsert. -/
def email_process_cot_data (df : DFrame) (source_file : String)
    (store : List MappingRecord) :
    Except String (EmailIngestResult × List MappingRecord) :=
  let cols := normCols df
  if !cols.contains "new_channel" then .error "KeyError: new_channel"
  else if !cols.contains "new_cot" then .error "KeyError: new_cot"
  else
    let ni := identify_new_items cols df.data store
    let st := df.data.foldl (processRowEmail ni source_file cols) (initSt store)
    .ok ({ total_records := df.data.length,
           records_inserted := st.inserted,
           records_updated := st.updated,
           new_channels_found := ni.new_channels.length,
           new_cots_found := ni.new_cots.length,
           new_channels := ni.new_channels,
           new_cots := ni.new_cots }, sessionStore st)

/-- One row of the `processing_logs` table (models.ProcessingLog),
restricted to the columns the upload handler populates. -/
structure ProcessingLogRec where
  file_name : String
  email_sender : String
  total_records : Nat
  new_channels_found : Nat
  new_cots_found : Nat
  records_inserted : Nat
  records_updated : Nat
  records_skipped : Nat
  processing_status : String
  error_details : Option String
  new_channels_list : List String
  new_cots_list : List String
deriving Repr, DecidableEq

/-- Committed database contents relevant to the upload handler. -/
structure Db where
  mappings : List MappingRecord
  logs : List ProcessingLogRec
deriving Repr, DecidableEq

/-- What the HTTP caller of `/upload-excel/` observes. -/
inductive UploadOutcome where
  /-- 200 with the ingest result. -/
  | success (result : IngestResult)
  /-- `HTTPException(400, detail)` raised after the ERROR log committed. -/
  | clientError (detail : String)
  /-- An exception escaped the handler (the except-block commit raised
  `PendingRollbackError` on the unrolled-back session): a 500, and the
  error log was never persisted. -/
  | serverError
deriving Repr, DecidableEq

/-- The SUCCESS log entry built in `upload_excel`. -/
def successLog (filename : String) (res : IngestResult) : ProcessingLogRec :=
  { file_name := filename, email_sender := "manual_upload",
    total_records := res.total_records,
    new_channels_found := res.new_channels_found,
    new_cots_found := res.new_cots_found,
    records_inserted := res.records_inserted,
    records_updated := res.records_updated,
    records_skipped := res.records_skipped,
    processing_status := "SUCCESS", error_details := none,
    new_channels_list := res.new_channels,
    new_cots_list := res.new_cots }

/-- The ERROR log entry built in the except block of `upload_excel`
(counter columns keep their defaults of 0). -/
def errorLog (filename detail : String) : ProcessingLogRec :=
  { file_name := filename, email_sender := "manual_upload",
    total_records := 0, new_channels_found := 0, new_cots_found := 0,
    records_inserted := 0, records_updated := 0, records_skipped := 0,
    processing_status := "ERROR", error_details := some detail,
    new_channels_list := [], new_cots_list := [] }

/-- The `ValueError` message for missing columns. -/
def validationDetail (missing : List String) : String :=
  "Missing required columns: " ++ toString missing

/-- The `/upload-excel/` handler.  `commitMappingsOk` says whether the
`db.commit()` inside `process_excel_data` succeeds; `commitLogOk` whether
a commit of the log entry on a clean session would succeed.  A failed
commit leaves the SQLAlchemy session in pending-rollback state, and the
handler's except block reuses that session without `rollback()`, so its
own `db.commit()` raises and nothing it added is persisted. -/
def upload_excel (df : DFrame) (filename : String)
    (commitMappingsOk commitLogOk : Bool) (db : Db) : UploadOutcome × Db :=
  match process_excel_data df filename db.mappings with
  | .error missing =>
      -- ValueError raised before any session write: the except block runs
      -- on a clean session and its commit can persist the ERROR log.
      if commitLogOk then
        (.clientError (validationDetail missing),
         { db with logs := db.logs ++ [errorLog filename (validationDetail missing)] })
      else (.serverError, db)
  | .ok (res, newMappings) =>
      if commitMappingsOk then
        let db1 : Db := { db with mappings := newMappings }
        if commitLogOk then
          (.success res, { db1 with logs := db1.logs ++ [successLog filename res] })
        else
          -- the SUCCESS-log commit failed; the except block reuses the
          -- now-broken session, so no ERROR entry is persisted either
          (.serverError, db1)
      else
        -- the store commit failed: the batch writes are rolled back, and
        -- the except block's log commit raises PendingRollbackError, so
        -- no ERROR entry reaches the database
        (.serverError, db)

/-- One row of the `email_config` table (models.EmailConfig), without
timestamp columns. -/
structure EmailConfigRec where
  imap_server : String
  imap_port : Nat
  email_username : Option String
  email_password : Option String
  smtp_server : String
  smtp_port : Nat
  enabled : Bool
  email_folder : String
  search_subject : String
  check_interval : Nat
deriving Repr, DecidableEq

/-- Column defaults of `EmailConfig()`. -/
def defaultEmailConfig : EmailConfigRec :=
  { imap_server := "imap.gmail.com", imap_port := 993,
    email_username := none, email_password := none,
    smtp_server := "smtp.gmail.com", smtp_port := 587,
    enabled := false, email_folder := "INBOX", search_subject := "CoT",
    check_interval := 300 }

/-- The response model of the configuration read endpoint
(`EmailConfigResponse` in main.py): it has no password field. -/
structure EmailConfigResponse where
  imap_server : String
  imap_port : Nat
  email_username : Option String
  smtp_server : String
  smtp_port : Nat
  enabled : Bool
deriving Repr, DecidableEq

/-- The field projection performed by `get_email_config` when building
its response. -/
def toEmailConfigResponse (c : EmailConfigRec) : EmailConfigResponse :=
  { imap_server := c.imap_server, imap_port := c.imap_port,
    email_username := c.email_username, smtp_server := c.smtp_server,
    smtp_port := c.smtp_port, enabled := c.enabled }

/-- The `GET /email-config/` endpoint: read the first stored
configuration (creating the default row when the table is empty) and
return the password-free response. -/
def get_email_config (configs : List EmailConfigRec) :
    EmailConfigResponse × List EmailConfigRec :=
  match configs with
  | [] => (toEmailConfigResponse defaultEmailConfig, [defaultEmailConfig])
  | c :: cs => (toEmailConfigResponse c, c :: cs)

/-- The default `settings.email_check_interval` (config.py). -/
def emailCheckIntervalDefault : Nat := 300

/-- Environment of one iteration of the background monitoring loop. -/
structure MonitorEnv where
  /-- The iteration body up to the sleep (session construction, config
  read, session close) raised no exception. -/
  bodyOk : Bool
  /-- The enabled configuration returned by `get_email_config`, if any. -/
  config : Option EmailConfigRec
  /-- The IMAP connection/login inside `check_new_emails` succeeded. -/
  mailboxReachable : Bool
  /-- Unread messages with Excel attachments available when reachable. -/
  unreadEmails : Nat
deriving Repr, DecidableEq

/-- Embeds `EmailProcessor.check_new_emails`: its own try/except catches every
exception (in particular a mailbox-connection failure) and falls through
to return the list collected so far, i.e. the empty list. -/
def check_new_emails (config : Option EmailConfigRec)
    (mailboxReachable : Bool) (unreadEmails : Nat) : Nat :=
  match config with
  | none => 0
  | some _ => if mailboxReachable then unreadEmails else 0

/-- Observable effect of one iteration of the `monitor_emails` loop. -/
structure IterationOutcome where
  emailsProcessed : Nat
  sleepSeconds : Nat
deriving Repr, DecidableEq

/-- One pass of the `while self.is_running` loop in `start_monitoring`:
`none` means the loop exits (only possible when `is_running` is false);
otherwise the iteration runs, sleeps the returned number of seconds, and
loops again.  An exception escaping the body is caught by the loop-level
except, which sleeps the fixed 60-second backoff. -/
def monitor_iteration (isRunning : Bool) (env : MonitorEnv) :
    Option IterationOutcome :=
  if isRunning then
    if env.bodyOk then
      let n := match env.config with
        | some cfg =>
            if cfg.enabled then
              check_new_emails env.config env.mailboxReachable env.unreadEmails
            else 0
        | none => 0
      let sleep := match env.config with
        | some cfg => cfg.check_interval
        | none => emailCheckIntervalDefault
      some { emailsProcessed := n, sleepSeconds := sleep }
    else some { emailsProcessed := 0, sleepSeconds := 60 }
  else none

/-- A batch delivered through one of the two ingestion paths. -/
inductive BatchInput where
  | upload (df : DFrame) (name : String)
  | emailAtt (df : DFrame) (name : String)
deriving Repr, DecidableEq

/-- The frame carried by a batch. -/
def BatchInput.frame : BatchInput → DFrame
  | .upload df _ => df
  | .emailAtt df _ => df

/-- Committed mapping table after ingesting one batch (a failed batch
commits nothing: validation errors and KeyErrors abort before the store
commit). -/
def ingestStore (store : List MappingRecord) : BatchInput → List MappingRecord
  | .upload df name =>
      match process_excel_data df name store with
      | .ok (_, s) => s
      | .error _ => store
  | .emailAtt df name =>
      match email_process_cot_data df name store with
      | .ok (_, s) => s
      | .error _ => store

/-- Mapping table after ingesting a sequence of batches into an initially
empty store. -/
def runBatches (bs : List BatchInput) : List MappingRecord :=
  bs.foldl ingestStore []

/-- Concrete two-row batch for exercising claim 1: one full row, one row
with a missing identity component. -/
def c1df : DFrame :=
  { cols := ["IC Channel", "IC COT", "New Channel", "New COT"],
    data := [[some "A", some "B", some "C", some "D"],
             [none, some "x", some "E", some "F"]] }

/-- Upload-path result on `c1df`. -/
def c1res : IngestResult :=
  match process_excel_data c1df "b.xlsx" [] with
  | .ok (r, _) => r
  | .error _ => default

/-- Upload-path store on `c1df`. -/
def c1s1 : List MappingRecord :=
  match process_excel_data c1df "b.xlsx" [] with
  | .ok (_, s) => s
  | .error _ => []

/-- Email-path result on `c1df`. -/
def c1eres : EmailIngestResult :=
  match email_process_cot_data c1df "b.xlsx" [] with
  | .ok (r, _) => r
  | .error _ => default

/-- Email-path store on `c1df`. -/
def c1s2 : List MappingRecord :=
  match email_process_cot_data c1df "b.xlsx" [] with
  | .ok (_, s) => s
  | .error _ => []

/-- Enabled configuration with the default 300-second poll interval. -/
def c8cfg : EmailConfigRec := { defaultEmailConfig with enabled := true }

/-- Iteration environment in which the IMAP connection fails. -/
def c8env : MonitorEnv :=
  { bodyOk := true, config := some c8cfg, mailboxReachable := false,
    unreadEmails := 5 }

/-- Iteration environment whose body throws before the sleep. -/
def c8envB : MonitorEnv :=
  { bodyOk := false, config := none, mailboxReachable := true,
    unreadEmails := 0 }

/-- Valid one-row batch for the commit-failure scenario. -/
def c5df : DFrame :=
  { cols := ["ic_channel", "ic_cot", "new_channel", "new_cot"],
    data := [[some "A", some "B", some "C", some "D"]] }

/-- Empty committed database. -/
def c5db : Db := { mappings := [], logs := [] }

/-- Three-row batch, one row missing its `ic_channel`. -/
def c7df : DFrame :=
  { cols := ["ic_channel", "ic_cot", "new_channel", "new_cot"],
    data := [[some "A", some "B", some "C", some "D"],
             [none, some "x", some "E", some "F"],
             [some "G", some "H", some "I", some "J"]] }

/-- Upload-path result on `c7df`. -/
def c7res : IngestResult :=
  match process_excel_data c7df "c7.xlsx" [] with
  | .ok (r, _) => r
  | .error _ => default

/-- Upload-path store on `c7df`. -/
def c7s1 : List MappingRecord :=
  match process_excel_data c7df "c7.xlsx" [] with
  | .ok (_, s) => s
  | .error _ => []

/-- Batch missing all four canonical columns. -/
def c6dfU : DFrame := { cols := ["notes"], data := [] }

/-- Batch missing only the two new-value columns. -/
def c6dfE : DFrame := { cols := ["ic_channel", "ic_cot"], data := [] }

/-- Batch missing the `ic_channel` column but having both new-value
columns. -/
def c6df : DFrame :=
  { cols := ["ic cot", "new channel", "new cot"],
    data := [[some "B", some "C", some "D"]] }

/-- Whether the store holds a record matching identity key `k` (under SQL
equality). -/
def hasKey (s : List MappingRecord) (k : Cell × Cell) : Bool :=
  s.any (fun m => keyMatches m k.1 k.2)

/-- The record a row leaves behind: its identity key, its new values, and
the novelty flags computed from the batch-level novelty sets. -/
def RowWitness (ni : NewItems) (cols : List String) (r : List Cell)
    (m : MappingRecord) : Prop :=
  m.ic_channel = rowGet cols r "ic_channel"
  ∧ m.ic_cot = rowGet cols r "ic_cot"
  ∧ m.new_channel = rowGet cols r "new_channel"
  ∧ m.new_cot = rowGet cols r "new_cot"
  ∧ m.is_new_channel
      = noveltyFlag ni.new_channels (rowGet cols r "new_channel")
  ∧ m.is_new_cot = noveltyFlag ni.new_cots (rowGet cols r "new_cot")

/-- Two-row batch with distinct present identity keys. -/
def c3df : DFrame :=
  { cols := ["ic_channel", "ic_cot", "new_channel", "new_cot"],
    data := [[some "A", some "B", some "C", some "D"],
             [some "G", some "H", some "I", some "J"]] }

/-- First-run result on `c3df`. -/
def c3res1 : IngestResult :=
  match process_excel_data c3df "first.xlsx" [] with
  | .ok (r, _) => r
  | .error _ => default

/-- Store committed by the first ingest of `c3df`. -/
def c3s1 : List MappingRecord :=
  match process_excel_data c3df "first.xlsx" [] with
  | .ok (_, s) => s
  | .error _ => []

/-- Second-run result on `c3df`. -/
def c3res2 : IngestResult :=
  match process_excel_data c3df "second.xlsx" c3s1 with
  | .ok (r, _) => r
  | .error _ => default

/-- Store committed by the second ingest of `c3df`. -/
def c3s2 : List MappingRecord :=
  match process_excel_data c3df "second.xlsx" c3s1 with
  | .ok (_, s) => s
  | .error _ => []

/-- One-row batch whose single row is skipped for lack of `ic_channel`
while carrying the otherwise-unseen value Retail. -/
def c3dfSkip : DFrame :=
  { cols := ["ic_channel", "ic_cot", "new_channel", "new_cot"],
    data := [[none, some "x", some "Retail", some "RC"]] }

/-- Two rows with distinct identity keys both introducing Retail/RC. -/
def c2df : DFrame :=
  { cols := ["ic_channel", "ic_cot", "new_channel", "new_cot"],
    data := [[some "A", some "B", some "Retail", some "RC"],
             [some "C", some "D", some "Retail", some "RC"]] }

/-- Upload-path result on `c2df`. -/
def c2res : IngestResult :=
  match process_excel_data c2df "c2.xlsx" [] with
  | .ok (r, _) => r
  | .error _ => default

/-- Store committed by ingesting `c2df` into an empty store. -/
def c2s1 : List MappingRecord :=
  match process_excel_data c2df "c2.xlsx" [] with
  | .ok (_, s) => s
  | .error _ => []

/-- Two records sharing a fully-present identity key. -/
def sameValidKey (a b : MappingRecord) : Bool :=
  keyMatches a b.ic_channel b.ic_cot

/-- At most one record per present identity key pair. -/
def ValidKeyUnique (s : List MappingRecord) : Prop :=
  s.Pairwise (fun a b => sameValidKey a b = false)

/-- At most one record per (ic_channel, ic_cot) pair, null components
included: the uniqueness invariant exactly as the claim states it. -/
def PairUnique (s : List MappingRecord) : Prop :=
  s.Pairwise (fun a b =>
    ¬ (a.ic_channel = b.ic_channel ∧ a.ic_cot = b.ic_cot))

/-- No two batch rows share a fully-present identity key. -/
def BatchKeysDistinct (df : DFrame) : Prop :=
  df.data.Pairwise (fun a b =>
    validKey (rowKey (normCols df) a) = true →
    validKey (rowKey (normCols df) b) = true →
    rowKey (normCols df) a ≠ rowKey (normCols df) b)

/-- A single upload whose two rows share the identity key (A, B). -/
def c4df : DFrame :=
  { cols := ["IC Channel", "IC COT", "New Channel", "New COT"],
    data := [[some "A", some "B", some "C", some "D"],
             [some "A", some "B", some "E", some "F"]] }

/-- One-row upload batch. -/
def c4dfW1 : DFrame :=
  { cols := ["ic_channel", "ic_cot", "new_channel", "new_cot"],
    data := [[some "A", some "B", some "C", some "D"]] }

/-- Email batch with a null-key row and a fresh valid key. -/
def c4dfW2 : DFrame :=
  { cols := ["ic_channel", "ic_cot", "new_channel", "new_cot"],
    data := [[none, some "x", some "E", some "F"],
             [some "G", some "H", some "I", some "J"]] }

/-- A record with a null new value is not flagged novel for that field. -/
def NullFlagOk (m : MappingRecord) : Prop :=
  (m.new_channel = none → m.is_new_channel = false)
  ∧ (m.new_cot = none → m.is_new_cot = false)

/-- One-row batch whose new_channel is null. -/
def c10df : DFrame :=
  { cols := ["ic_channel", "ic_cot", "new_channel", "new_cot"],
    data := [[some "A", some "B", none, some "D"]] }

/-- Upload-path result on `c10df`. -/
def c10res : IngestResult :=
  match process_excel_data c10df "c10.xlsx" [] with
  | .ok (r, _) => r
  | .error _ => default

/-- Upload-path store on `c10df`. -/
def c10s1 : List MappingRecord :=
  match process_excel_data c10df "c10.xlsx" [] with
  | .ok (_, s) => s
  | .error _ => []

/-- Email-path result on `c10df`. -/
def c10eres : EmailIngestResult :=
  match email_process_cot_data c10df "c10.xlsx" [] with
  | .ok (r, _) => r
  | .error _ => default

/-- Email-path store on `c10df`. -/
def c10s2 : List MappingRecord :=
  match email_process_cot_data c10df "c10.xlsx" [] with
  | .ok (_, s) => s
  | .error _ => []

/-- The record written for the null-new_channel row. -/
def c10rec : MappingRecord := c10s1.headD default

/-! ## Theorems -/

theorem upsertRow_inserted_updated (ni : NewItems) (src : String)
    (cols : List String) (st : SessionSt) (r : List Cell) :
    (upsertRow ni src cols st r).inserted + (upsertRow ni src cols st r).updated
      = st.inserted + st.updated + 1 := by
  simp only [upsertRow]
  split
  · simp; omega
  · simp; omega

theorem upsertRow_skipped (ni : NewItems) (src : String)
    (cols : List String) (st : SessionSt) (r : List Cell) :
    (upsertRow ni src cols st r).skipped = st.skipped := by
  simp only [upsertRow]
  split
  · rfl
  · rfl

theorem processRowUpload_sum (ni : NewItems) (src : String)
    (cols : List String) (st : SessionSt) (r : List Cell) :
    (processRowUpload ni src cols st r).inserted
      + (processRowUpload ni src cols st r).updated
      + (processRowUpload ni src cols st r).skipped
      = st.inserted + st.updated + st.skipped + 1 := by
  simp only [processRowUpload]
  split
  · simp; omega
  · have h1 := upsertRow_inserted_updated ni src cols st r
    have h2 := upsertRow_skipped ni src cols st r
    omega

theorem foldUpload_sum (ni : NewItems) (src : String) (cols : List String) :
    ∀ (rows : List (List Cell)) (st : SessionSt),
    (rows.foldl (processRowUpload ni src cols) st).inserted
      + (rows.foldl (processRowUpload ni src cols) st).updated
      + (rows.foldl (processRowUpload ni src cols) st).skipped
      = st.inserted + st.updated + st.skipped + rows.length
  | [], st => by simp
  | r :: rs, st => by
      have ih := foldUpload_sum ni src cols rs (processRowUpload ni src cols st r)
      have h := processRowUpload_sum ni src cols st r
      simp only [List.foldl_cons, List.length_cons]
      omega

theorem foldEmail_sum (ni : NewItems) (src : String) (cols : List String) :
    ∀ (rows : List (List Cell)) (st : SessionSt),
    (rows.foldl (processRowEmail ni src cols) st).inserted
      + (rows.foldl (processRowEmail ni src cols) st).updated
      = st.inserted + st.updated + rows.length
  | [], st => by simp
  | r :: rs, st => by
      have ih := foldEmail_sum ni src cols rs (processRowEmail ni src cols st r)
      have h := upsertRow_inserted_updated ni src cols st r
      simp only [List.foldl_cons, List.length_cons, processRowEmail] at ih ⊢
      omega

/-- C1.  For every ingested batch, the returned counters partition the
batch: on the upload path `records_inserted + records_updated +
records_skipped = total_records`; on the email path, whose result carries
no skipped counter (it is 0), `records_inserted + records_updated =
total_records`. -/
theorem claim1_counters_partition (df : DFrame) (src : String)
    (store : List MappingRecord) (res : IngestResult)
    (eres : EmailIngestResult) (s1 s2 : List MappingRecord) :
    (process_excel_data df src store = .ok (res, s1) →
      res.records_inserted + res.records_updated + res.records_skipped
        = res.total_records)
    ∧ (email_process_cot_data df src store = .ok (eres, s2) →
      eres.records_inserted + eres.records_updated = eres.total_records) := by
  constructor
  · intro h
    simp only [process_excel_data] at h
    split at h
    · have hs := foldUpload_sum (identify_new_items (normCols df) df.data store)
        src (normCols df) df.data (initSt store)
      simp only [Except.ok.injEq, Prod.mk.injEq] at h
      obtain ⟨hres, _⟩ := h
      subst hres
      simpa [initSt] using hs
    · exact absurd h (by simp)
  · intro h
    simp only [email_process_cot_data] at h
    split at h
    · exact absurd h (by simp)
    · split at h
      · exact absurd h (by simp)
      · have hs := foldEmail_sum (identify_new_items (normCols df) df.data store)
          src (normCols df) df.data (initSt store)
        simp only [Except.ok.injEq, Prod.mk.injEq] at h
        obtain ⟨hres, _⟩ := h
        subst hres
        simpa [initSt] using hs

/-- Witness for C1 at the concrete batch `c1df`. -/
theorem claim1_witness :
    c1res.records_inserted + c1res.records_updated + c1res.records_skipped
      = c1res.total_records
    ∧ c1eres.records_inserted + c1eres.records_updated = c1eres.total_records :=
  ⟨(claim1_counters_partition c1df "b.xlsx" [] c1res c1eres c1s1 c1s2).1 rfl,
   (claim1_counters_partition c1df "b.xlsx" [] c1res c1eres c1s1 c1s2).2 rfl⟩

/-- C9.  The configuration read endpoint's response is independent of the
stored email password: two stored configurations differing only in
`email_password` produce identical responses (the response model has no
password field at all). -/
theorem claim9_password_noninterference (c : EmailConfigRec)
    (cs : List EmailConfigRec) (p : Option String) :
    (get_email_config ({ c with email_password := p } :: cs)).1
      = (get_email_config (c :: cs)).1 := rfl

/-- C8 (amended).  The polling loop never exits while running: an
exception thrown by the loop body is logged and followed by the fixed
60-second backoff sleep, after which the loop iterates again; the loop
returns `none` (exits) only when the stop signal has cleared
`is_running`.  However, a mailbox-connection failure never reaches the
loop's except handler: `check_new_emails` catches it internally and
returns the empty list, so the loop then sleeps the configured normal
poll interval, not the backoff. -/
theorem claim8_loop_resilience (env : MonitorEnv) (cfg : EmailConfigRec) :
    (monitor_iteration true env).isSome = true
    ∧ (env.bodyOk = false →
        monitor_iteration true env
          = some { emailsProcessed := 0, sleepSeconds := 60 })
    ∧ (env.bodyOk = true → env.config = some cfg →
        env.mailboxReachable = false →
        monitor_iteration true env
          = some { emailsProcessed := 0, sleepSeconds := cfg.check_interval })
    ∧ monitor_iteration false env = none := by
  refine ⟨?_, ?_, ?_, rfl⟩
  · simp only [monitor_iteration, if_true]
    by_cases h : env.bodyOk <;> simp [h]
  · intro h
    simp [monitor_iteration, h]
  · intro hb hc hm
    simp only [monitor_iteration, if_true, hb, hc, hm, if_false]
    by_cases he : cfg.enabled <;> simp [he, check_new_emails, hm]

/-- Counterexample to C8 as stated: on a mailbox-connection failure the
loop sleeps the normal 300-second poll interval, not the 60-second
backoff, because `check_new_emails` swallows the exception itself. -/
theorem claim8_counterexample :
    monitor_iteration true c8env
      = some { emailsProcessed := 0, sleepSeconds := 300 }
    ∧ ¬ (monitor_iteration true c8env
      = some { emailsProcessed := 0, sleepSeconds := 60 }) := by
  exact ⟨rfl, by decide⟩

/-- Witness for C8 at concrete environments. -/
theorem claim8_witness :
    monitor_iteration true c8envB
      = some { emailsProcessed := 0, sleepSeconds := 60 }
    ∧ monitor_iteration true c8env
      = some { emailsProcessed := 0, sleepSeconds := c8cfg.check_interval }
    ∧ monitor_iteration false c8envB = none :=
  ⟨(claim8_loop_resilience c8envB c8cfg).2.1 rfl,
   (claim8_loop_resilience c8env c8cfg).2.2.1 rfl rfl rfl,
   (claim8_loop_resilience c8envB c8cfg).2.2.2⟩

/-- C5 (code bug).  When the store commit of a batch fails, the mapping
table is indeed left unchanged (the batch writes were one transaction),
but no ERROR ProcessingLog entry is persisted either: the except block
reuses the failed session without `rollback()`, so its own `db.commit()`
raises and the handler ends in a 500 with the logs table untouched. -/
theorem claim5_commit_failure_loses_error_log :
    upload_excel c5df "c5.xlsx" false true c5db = (.serverError, c5db)
    ∧ (upload_excel c5df "c5.xlsx" false true c5db).2.mappings = c5db.mappings
    ∧ (upload_excel c5df "c5.xlsx" false true c5db).2.logs = [] :=
  ⟨by decide, by decide, by decide⟩

theorem processRowUpload_skipped (ni : NewItems) (src : String)
    (cols : List String) (st : SessionSt) (r : List Cell) :
    (processRowUpload ni src cols st r).skipped
      = st.skipped + (if missingKey cols r then 1 else 0) := by
  simp only [processRowUpload]
  by_cases h : missingKey cols r
  · simp [h]
  · simp [h, upsertRow_skipped]

theorem foldUpload_skipped (ni : NewItems) (src : String) (cols : List String) :
    ∀ (rows : List (List Cell)) (st : SessionSt),
    (rows.foldl (processRowUpload ni src cols) st).skipped
      = st.skipped + rows.countP (fun r => missingKey cols r)
  | [], st => by simp
  | r :: rs, st => by
      have ih := foldUpload_skipped ni src cols rs
        (processRowUpload ni src cols st r)
      have h := processRowUpload_skipped ni src cols st r
      simp only [List.foldl_cons, List.countP_cons]
      rw [ih, h]
      by_cases hm : missingKey cols r
      · simp [hm]
        omega
      · simp [hm]

/-- C7 (amended).  On the upload path, every row whose identity key has a
missing component is skipped and counted in `records_skipped`, and only
the remaining rows are upserted; the email path has no skip logic and
upserts such rows instead. -/
theorem claim7_upload_skips (df : DFrame) (src : String)
    (store : List MappingRecord) (res : IngestResult)
    (s1 : List MappingRecord)
    (h : process_excel_data df src store = .ok (res, s1)) :
    res.records_skipped
      = df.data.countP (fun r => missingKey (normCols df) r)
    ∧ res.records_inserted + res.records_updated
      = df.data.length
        - df.data.countP (fun r => missingKey (normCols df) r) := by
  simp only [process_excel_data] at h
  split at h
  · have hs := foldUpload_sum (identify_new_items (normCols df) df.data store)
      src (normCols df) df.data (initSt store)
    have hk := foldUpload_skipped
      (identify_new_items (normCols df) df.data store)
      src (normCols df) df.data (initSt store)
    have hle : df.data.countP (fun r => missingKey (normCols df) r)
        ≤ df.data.length := List.countP_le_length _
    simp only [Except.ok.injEq, Prod.mk.injEq] at h
    obtain ⟨hres, _⟩ := h
    subst hres
    have e0 : (initSt store).inserted = 0 := rfl
    have e1 : (initSt store).updated = 0 := rfl
    have e2 : (initSt store).skipped = 0 := rfl
    rw [e0, e1, e2] at hs
    rw [e2] at hk
    constructor
    · simpa using hk
    · simp only []
      simp at hs hk ⊢
      omega
  · exact absurd h (by simp)

/-- Witness for (amended) C7: the 3-row scenario on the upload path gives
`total_rows = 3`, `rows_skipped = 1`, `rows_inserted ≤ 2`. -/
theorem claim7_witness :
    c7res.records_skipped
      = c7df.data.countP (fun r => missingKey (normCols c7df) r)
    ∧ c7res.total_records = 3 ∧ c7res.records_skipped = 1
    ∧ c7res.records_inserted ≤ 2 :=
  ⟨(claim7_upload_skips c7df "c7.xlsx" [] c7res c7s1 rfl).1,
   rfl, rfl, by decide⟩

/-- Counterexample to C7 as stated: on the email path the same 3-row
batch upserts all three rows (the missing-identity row included), so
`rows_inserted = 3`, not at most 2, and nothing is counted as skipped. -/
theorem claim7_counterexample :
    (email_process_cot_data c7df "c7.xlsx" []).map
        (fun p => p.1.records_inserted) = .ok 3
    ∧ ¬ (3 ≤ 2) :=
  ⟨rfl, by decide⟩

/-- C6 (amended).  On the upload path a batch missing any canonical
column after normalization fails with a ValidationError naming exactly
the missing fields, before any row is upserted.  The email path performs
no such validation: only a missing `new_channel`/`new_cot` column aborts
it, with a KeyError naming that single column. -/
theorem claim6_validation (df : DFrame) (src : String)
    (store : List MappingRecord) :
    (requiredColumns.filter (fun c => !(normCols df).contains c) ≠ [] →
      process_excel_data df src store
        = .error (requiredColumns.filter (fun c => !(normCols df).contains c)))
    ∧ ((normCols df).contains "new_channel" = false →
      email_process_cot_data df src store = .error "KeyError: new_channel")
    ∧ ((normCols df).contains "new_channel" = true →
      (normCols df).contains "new_cot" = false →
      email_process_cot_data df src store
        = .error "KeyError: new_cot") := by
  refine ⟨?_, ?_, ?_⟩
  · intro h
    have hc : ¬ ((requiredColumns.filter
        (fun c => !(normCols df).contains c)).isEmpty = true) :=
      fun hx => h (List.isEmpty_iff.mp hx)
    simp only [process_excel_data]
    rw [if_neg hc]
  · intro h
    simp only [email_process_cot_data, h, Bool.not_false, if_true]
  · intro h1 h2
    simp only [email_process_cot_data, h1, h2, Bool.not_true,
      Bool.not_false, if_true]
    rfl

/-- Witness for (amended) C6 at concrete frames. -/
theorem claim6_witness :
    process_excel_data c6dfU "w.xlsx" []
      = .error (requiredColumns.filter
          (fun c => !(normCols c6dfU).contains c))
    ∧ email_process_cot_data c6dfE "w.xlsx" []
      = .error "KeyError: new_channel" :=
  ⟨(claim6_validation c6dfU "w.xlsx" []).1 (by decide),
   (claim6_validation c6dfE "w.xlsx" []).2.1 (by decide)⟩

/-- Counterexample to C6 as stated: the email path ingests a batch whose
normalized columns are missing the canonical `ic_channel` field without
any ValidationError, and upserts its row (with a null identity) instead
of upserting nothing. -/
theorem claim6_counterexample :
    ("ic_channel" ∈ normCols c6df → False)
    ∧ (email_process_cot_data c6df "c6.xlsx" []).map
        (fun p => (p.1.records_inserted, p.2.length)) = .ok (1, 1) :=
  ⟨by decide, rfl⟩

theorem updateFirst_mem_of_not (p : MappingRecord → Bool)
    (f : MappingRecord → MappingRecord) :
    ∀ (l : List MappingRecord) (m : MappingRecord),
    m ∈ l → p m = false → m ∈ updateFirst p f l
  | [], m, hm, _ => absurd hm (List.not_mem_nil m)
  | r :: rs, m, hm, hp => by
      simp only [updateFirst]
      by_cases hr : p r
      · rcases List.mem_cons.mp hm with h | h
        · subst h; rw [hr] at hp; cases hp
        · simp only [hr, if_true, List.mem_cons]
          exact Or.inr h
      · rcases List.mem_cons.mp hm with h | h
        · simp [hr, h]
        · simp only [hr, if_false, Bool.false_eq_true, List.mem_cons]
          exact Or.inr (updateFirst_mem_of_not p f rs m h hp)

theorem exists_updateFirst_of_any (p : MappingRecord → Bool)
    (f : MappingRecord → MappingRecord) :
    ∀ (l : List MappingRecord), l.any p = true →
    ∃ y, p y = true ∧ y ∈ l ∧ f y ∈ updateFirst p f l
  | r :: rs, h => by
      by_cases hr : p r
      · exact ⟨r, hr, List.mem_cons_self r rs, by simp [updateFirst, hr]⟩
      · have h2 : rs.any p = true := by
          simp only [List.any_cons, hr, Bool.false_or] at h
          exact h
        obtain ⟨y, hy, hmem, hupd⟩ := exists_updateFirst_of_any p f rs h2
        refine ⟨y, hy, List.mem_cons_of_mem r hmem, ?_⟩
        simp only [updateFirst, hr, if_false, Bool.false_eq_true, List.mem_cons]
        exact Or.inr hupd

theorem mem_updateFirst_cases (p : MappingRecord → Bool)
    (f : MappingRecord → MappingRecord) :
    ∀ (l : List MappingRecord) (x : MappingRecord),
    x ∈ updateFirst p f l → x ∈ l ∨ ∃ y, y ∈ l ∧ p y = true ∧ x = f y
  | [], x, hx => by simp [updateFirst] at hx
  | r :: rs, x, hx => by
      simp only [updateFirst] at hx
      by_cases hr : p r
      · rw [if_pos hr] at hx
        rcases List.mem_cons.mp hx with h | h
        · exact Or.inr ⟨r, List.mem_cons_self r rs, hr, h⟩
        · exact Or.inl (List.mem_cons_of_mem r h)
      · rw [if_neg hr] at hx
        rcases List.mem_cons.mp hx with h | h
        · exact Or.inl (h ▸ List.mem_cons_self r rs)
        · rcases mem_updateFirst_cases p f rs x h with h2 | ⟨y, hy, hpy, hxy⟩
          · exact Or.inl (List.mem_cons_of_mem r h2)
          · exact Or.inr ⟨y, List.mem_cons_of_mem r hy, hpy, hxy⟩

theorem updateFirst_any_eq (p : MappingRecord → Bool)
    (f : MappingRecord → MappingRecord) (q : MappingRecord → Bool)
    (hq : ∀ y, q (f y) = q y) :
    ∀ (l : List MappingRecord), (updateFirst p f l).any q = l.any q
  | [] => rfl
  | r :: rs => by
      simp only [updateFirst]
      by_cases hr : p r
      · simp [hr, List.any_cons, hq r]
      · simp [hr, List.any_cons, updateFirst_any_eq p f q hq rs]

theorem pairwise_updateFirst {R : MappingRecord → MappingRecord → Prop}
    (p : MappingRecord → Bool) (f : MappingRecord → MappingRecord)
    (h1 : ∀ a b, R a b → R a (f b)) (h2 : ∀ a b, R a b → R (f a) b) :
    ∀ (l : List MappingRecord), l.Pairwise R → (updateFirst p f l).Pairwise R
  | [], _ => by simp [updateFirst]
  | r :: rs, hp => by
      rcases List.pairwise_cons.mp hp with ⟨hr, hrs⟩
      by_cases hpr : p r
      · simp only [updateFirst, hpr, if_true]
        exact List.pairwise_cons.mpr ⟨fun b hb => h2 r b (hr b hb), hrs⟩
      · simp only [updateFirst, hpr, if_false, Bool.false_eq_true]
        refine List.pairwise_cons.mpr
          ⟨?_, pairwise_updateFirst p f h1 h2 rs hrs⟩
        intro b hb
        rcases mem_updateFirst_cases p f rs b hb with h | ⟨y, hy, _, hby⟩
        · exact hr b h
        · exact hby ▸ h1 r y (hr y hy)

theorem keyMatches_overwrite (ni : NewItems) (src : String)
    (nc ncot nts : Cell) (m : MappingRecord) (c t : Cell) :
    keyMatches (overwriteRecord ni src nc ncot nts m) c t
      = keyMatches m c t := rfl

theorem sqlEq_self_of_isSome (c : Cell) (h : c.isSome = true) :
    sqlEq c c = true := by
  cases c
  · cases h
  · simp [sqlEq]

/-- The base table keeps exactly the same key matches through every row:
updates preserve key fields and inserts go to the pending list only. -/
theorem processRowUpload_base_hasKey (ni : NewItems) (src : String)
    (cols : List String) (st : SessionSt) (r : List Cell)
    (k : Cell × Cell) :
    hasKey (processRowUpload ni src cols st r).base k = hasKey st.base k := by
  simp only [processRowUpload]
  split
  · rfl
  · simp only [upsertRow]
    split
    · exact updateFirst_any_eq _ _ _ (fun y => keyMatches_overwrite ..) st.base
    · rfl

theorem processRowEmail_base_hasKey (ni : NewItems) (src : String)
    (cols : List String) (st : SessionSt) (r : List Cell)
    (k : Cell × Cell) :
    hasKey (processRowEmail ni src cols st r).base k = hasKey st.base k := by
  simp only [processRowEmail, upsertRow]
  split
  · exact updateFirst_any_eq _ _ _ (fun y => keyMatches_overwrite ..) st.base
  · rfl

theorem upsert_hasKey_mono (ni : NewItems) (src : String)
    (cols : List String) (st : SessionSt) (r : List Cell) (k : Cell × Cell)
    (h : hasKey (sessionStore st) k = true) :
    hasKey (sessionStore (upsertRow ni src cols st r)) k = true := by
  simp only [upsertRow]
  split
  · simp only [sessionStore, hasKey, List.any_append] at h ⊢
    rw [updateFirst_any_eq _ _ _ (fun y => keyMatches_overwrite ..) st.base]
    exact h
  · simp only [sessionStore, hasKey, List.any_append] at h ⊢
    rcases (Bool.or_eq_true _ _).mp h with h1 | h2
    · simp [h1]
    · simp [h2]

theorem processRowUpload_hasKey_mono (ni : NewItems) (src : String)
    (cols : List String) (st : SessionSt) (r : List Cell) (k : Cell × Cell)
    (h : hasKey (sessionStore st) k = true) :
    hasKey (sessionStore (processRowUpload ni src cols st r)) k = true := by
  simp only [processRowUpload]
  split
  · exact h
  · exact upsert_hasKey_mono ni src cols st r k h

theorem foldUpload_hasKey_mono (ni : NewItems) (src : String)
    (cols : List String) :
    ∀ (rows : List (List Cell)) (st : SessionSt) (k : Cell × Cell),
    hasKey (sessionStore st) k = true →
    hasKey (sessionStore (rows.foldl (processRowUpload ni src cols) st)) k
      = true
  | [], _, _, h => h
  | r :: rs, st, k, h =>
      foldUpload_hasKey_mono ni src cols rs _ k
        (processRowUpload_hasKey_mono ni src cols st r k h)

/-- Processing a row with a present identity key leaves a matching record
in the session (either the updated base record or the new pending one). -/
theorem processRowUpload_establishes (ni : NewItems) (src : String)
    (cols : List String) (st : SessionSt) (r : List Cell)
    (hvalid : missingKey cols r = false) :
    hasKey (sessionStore (processRowUpload ni src cols st r))
      (rowKey cols r) = true := by
  have hv := hvalid
  simp only [missingKey, Bool.or_eq_false_iff, Option.isNone_eq_false_iff]
    at hv
  simp only [processRowUpload, hvalid]
  rw [if_neg (by simp)]
  simp only [upsertRow]
  split
  · rename_i hc
    simp only [sessionStore, hasKey, List.any_append, rowKey]
    rw [updateFirst_any_eq _ _ _ (fun y => keyMatches_overwrite ..) st.base]
    simp [hc]
  · have hrec : keyMatches (mkRecord ni src (rowGet cols r "ic_channel")
        (rowGet cols r "ic_cot") (rowGet cols r "new_channel")
        (rowGet cols r "new_cot") (rowGet cols r "notes"))
        (rowKey cols r).1 (rowKey cols r).2 = true := by
      simp only [keyMatches, mkRecord, rowKey]
      rw [sqlEq_self_of_isSome _ hv.1, sqlEq_self_of_isSome _ hv.2]
      rfl
    simp [sessionStore, hasKey, List.any_append, hrec]

/-- Every present-key row of a batch has a matching record in the store
committed at the end of the batch. -/
theorem foldUpload_covers (ni : NewItems) (src : String)
    (cols : List String) :
    ∀ (rows : List (List Cell)) (st : SessionSt) (r : List Cell),
    r ∈ rows → missingKey cols r = false →
    hasKey (sessionStore (rows.foldl (processRowUpload ni src cols) st))
      (rowKey cols r) = true
  | r0 :: rs, st, r, hmem, hvalid => by
      rcases List.mem_cons.mp hmem with h | h
      · subst h
        exact foldUpload_hasKey_mono ni src cols rs _ _
          (processRowUpload_establishes ni src cols st r hvalid)
      · exact foldUpload_covers ni src cols rs _ r h hvalid

/-- When every present-key row already matches the committed base table,
the whole batch performs no insert: present-key rows update and the rest
are skipped. -/
theorem foldUpload_counts_when_matched (ni : NewItems) (src : String)
    (cols : List String) :
    ∀ (rows : List (List Cell)) (st : SessionSt),
    (∀ r ∈ rows, missingKey cols r = false →
      hasKey st.base (rowKey cols r) = true) →
    (rows.foldl (processRowUpload ni src cols) st).inserted = st.inserted
    ∧ (rows.foldl (processRowUpload ni src cols) st).updated
        = st.updated + rows.countP (fun r => !missingKey cols r)
  | [], st, _ => by simp
  | r :: rs, st, hall => by
      have hbase : ∀ k, hasKey (processRowUpload ni src cols st r).base k
          = hasKey st.base k :=
        processRowUpload_base_hasKey ni src cols st r
      have ihall : ∀ x ∈ rs, missingKey cols x = false →
          hasKey (processRowUpload ni src cols st r).base (rowKey cols x)
            = true := by
        intro x hx hv
        rw [hbase]
        exact hall x (List.mem_cons_of_mem r hx) hv
      have ih := foldUpload_counts_when_matched ni src cols rs
        (processRowUpload ni src cols st r) ihall
      simp only [List.foldl_cons, List.countP_cons]
      by_cases hm : missingKey cols r
      · have hstep : processRowUpload ni src cols st r
            = { st with skipped := st.skipped + 1 } := by
          simp [processRowUpload, hm]
        rw [hstep] at ih
        simp only [hstep, hm]
        refine ⟨ih.1, ?_⟩
        rw [ih.2]
        simp
      · have hk := hall r (List.mem_cons_self r rs) (Bool.eq_false_iff.mpr hm)
        have hstep : processRowUpload ni src cols st r
            = { st with
                base := updateFirst
                  (fun m => keyMatches m (rowGet cols r "ic_channel")
                    (rowGet cols r "ic_cot"))
                  (overwriteRecord ni src (rowGet cols r "new_channel")
                    (rowGet cols r "new_cot") (rowGet cols r "notes"))
                  st.base,
                updated := st.updated + 1 } := by
          simp only [processRowUpload, hm, if_false, Bool.false_eq_true,
            upsertRow]
          rw [if_pos]
          simpa [hasKey, rowKey] using hk
        rw [hstep] at ih
        simp only [hstep, hm]
        refine ⟨ih.1, ?_⟩
        rw [ih.2]
        simp only [Bool.not_false, if_true]
        omega

theorem sqlEq_eq_of_true (a b : Cell) (h : sqlEq a b = true) : a = b := by
  cases a with
  | none => simp [sqlEq] at h
  | some x =>
      cases b with
      | none => simp [sqlEq] at h
      | some y =>
          simp only [sqlEq, beq_iff_eq] at h
          exact congrArg some h

/-- Processing a present-key row leaves a record carrying exactly that
row's key, payload and flags (the updated base record or the new pending
record). -/
theorem processRowUpload_establishes_witness (ni : NewItems) (src : String)
    (cols : List String) (st : SessionSt) (r : List Cell)
    (hvalid : missingKey cols r = false) :
    ∃ m ∈ sessionStore (processRowUpload ni src cols st r),
      RowWitness ni cols r m := by
  simp only [processRowUpload, hvalid]
  rw [if_neg (by simp)]
  simp only [upsertRow]
  split
  · rename_i hc
    obtain ⟨y, hpy, hymem, hyin⟩ := exists_updateFirst_of_any _ _ st.base hc
    have h12 : sqlEq y.ic_channel (rowGet cols r "ic_channel") = true
        ∧ sqlEq y.ic_cot (rowGet cols r "ic_cot") = true := by
      simpa [keyMatches] using hpy
    refine ⟨overwriteRecord ni src (rowGet cols r "new_channel")
      (rowGet cols r "new_cot") (rowGet cols r "notes") y,
      List.mem_append_left _ hyin, ?_⟩
    exact ⟨sqlEq_eq_of_true _ _ h12.1, sqlEq_eq_of_true _ _ h12.2,
      rfl, rfl, rfl, rfl⟩
  · exact ⟨mkRecord ni src (rowGet cols r "ic_channel")
      (rowGet cols r "ic_cot") (rowGet cols r "new_channel")
      (rowGet cols r "new_cot") (rowGet cols r "notes"),
      List.mem_append_right _ (List.mem_append_right _
        (List.mem_singleton.mpr rfl)),
      rfl, rfl, rfl, rfl, rfl, rfl⟩

/-- A row with a different identity key never disturbs another row's
record: the in-place update only touches records matching its own key. -/
theorem processRowUpload_preserves_witness (ni : NewItems) (src : String)
    (cols : List String) (st : SessionSt) (q r : List Cell)
    (m : MappingRecord) (hw : RowWitness ni cols r m)
    (hm : m ∈ sessionStore st)
    (hne : rowKey cols q ≠ rowKey cols r) :
    m ∈ sessionStore (processRowUpload ni src cols st q) := by
  simp only [processRowUpload]
  split
  · exact hm
  · simp only [upsertRow]
    split
    · rcases List.mem_append.mp hm with hb | hp
      · apply List.mem_append_left
        apply updateFirst_mem_of_not _ _ _ _ hb
        cases hpm : keyMatches m (rowGet cols q "ic_channel")
            (rowGet cols q "ic_cot")
        · rfl
        · exfalso
          have h12 : sqlEq m.ic_channel (rowGet cols q "ic_channel") = true
              ∧ sqlEq m.ic_cot (rowGet cols q "ic_cot") = true := by
            simpa [keyMatches] using hpm
          apply hne
          have e1 := sqlEq_eq_of_true _ _ h12.1
          have e2 := sqlEq_eq_of_true _ _ h12.2
          simp only [rowKey, Prod.mk.injEq]
          exact ⟨e1.symm.trans hw.1, e2.symm.trans hw.2.1⟩
      · exact List.mem_append_right _ hp
    · rcases List.mem_append.mp hm with hb | hp
      · exact List.mem_append_left _ hb
      · exact List.mem_append_right _ (List.mem_append_left _ hp)

theorem foldUpload_preserves_witness (ni : NewItems) (src : String)
    (cols : List String) :
    ∀ (rows : List (List Cell)) (st : SessionSt) (r : List Cell)
      (m : MappingRecord), RowWitness ni cols r m → m ∈ sessionStore st →
    (∀ q ∈ rows, rowKey cols q ≠ rowKey cols r) →
    m ∈ sessionStore (rows.foldl (processRowUpload ni src cols) st)
  | [], _, _, _, _, hm, _ => hm
  | q :: qs, st, r, m, hw, hm, hall =>
      foldUpload_preserves_witness ni src cols qs _ r m hw
        (processRowUpload_preserves_witness ni src cols st q r m hw hm
          (hall q (List.mem_cons_self q qs)))
        (fun x hx => hall x (List.mem_cons_of_mem q hx))

/-- When all rows have present, pairwise-distinct identity keys, every
row's key/payload/flags survive to the committed store. -/
theorem foldUpload_witness_of_distinct (ni : NewItems) (src : String)
    (cols : List String) :
    ∀ (rows : List (List Cell)) (st : SessionSt),
    (∀ q ∈ rows, missingKey cols q = false) →
    rows.Pairwise (fun a b => rowKey cols a ≠ rowKey cols b) →
    ∀ r ∈ rows,
    ∃ m ∈ sessionStore (rows.foldl (processRowUpload ni src cols) st),
      RowWitness ni cols r m
  | r0 :: rs, st, hvalid, hdist, r, hr => by
      rcases List.pairwise_cons.mp hdist with ⟨hhead, hrest⟩
      rcases List.mem_cons.mp hr with h | hmem
      · subst h
        obtain ⟨m, hmmem, hw⟩ := processRowUpload_establishes_witness
          ni src cols st r (hvalid r (List.mem_cons_self r rs))
        exact ⟨m, foldUpload_preserves_witness ni src cols rs _ r m hw hmmem
          (fun q hq => (hhead q hq).symm), hw⟩
      · exact foldUpload_witness_of_distinct ni src cols rs
          (processRowUpload ni src cols st r0)
          (fun q hq => hvalid q (List.mem_cons_of_mem r0 hq)) hrest r hmem

/-- Index-based variant: a present-key row whose identity key occurs at
no other batch position leaves its own record in the committed store. -/
theorem foldUpload_witness_of_unique (ni : NewItems) (src : String)
    (cols : List String) :
    ∀ (rows : List (List Cell)) (st : SessionSt) (i : Nat) (r : List Cell),
    rows[i]? = some r → missingKey cols r = false →
    (∀ (l : Nat) (x : List Cell), rows[l]? = some x →
      rowKey cols x = rowKey cols r → l = i) →
    ∃ m ∈ sessionStore (rows.foldl (processRowUpload ni src cols) st),
      RowWitness ni cols r m
  | r0 :: rs, st, i, r, hget, hvalid, huniq => by
      cases i with
      | zero =>
          have h0 : r0 = r := by simpa using hget
          subst h0
          obtain ⟨m, hmmem, hw⟩ := processRowUpload_establishes_witness
            ni src cols st r0 hvalid
          refine ⟨m, foldUpload_preserves_witness ni src cols rs _ r0 m hw
            hmmem ?_, hw⟩
          intro q hq heq
          obtain ⟨l, hl⟩ := List.mem_iff_getElem?.mp hq
          have := huniq (l + 1) q (by simpa using hl) heq
          omega
      | succ l =>
          have hget2 : rs[l]? = some r := by simpa using hget
          apply foldUpload_witness_of_unique ni src cols rs
            (processRowUpload ni src cols st r0) l r hget2 hvalid
          intro l2 x hx hkey
          have := huniq (l2 + 1) x (by simpa using hx) hkey
          omega

theorem contains_iff_mem (l : List String) (v : String) :
    l.contains v = true ↔ v ∈ l := by
  simp

theorem mem_fileValues (cols : List String) (data : List (List Cell))
    (c : String) (v : String) :
    v ∈ fileValues cols data c ↔ ∃ r ∈ data, rowGet cols r c = some v := by
  simp [fileValues, List.mem_dedup, List.mem_filterMap]

theorem mem_existingNewChannels (store : List MappingRecord) (v : String) :
    v ∈ existingNewChannels store ↔ ∃ m ∈ store, m.new_channel = some v := by
  simp [existingNewChannels, List.mem_dedup, List.mem_filterMap]

theorem mem_existingNewCots (store : List MappingRecord) (v : String) :
    v ∈ existingNewCots store ↔ ∃ m ∈ store, m.new_cot = some v := by
  simp [existingNewCots, List.mem_dedup, List.mem_filterMap]

/-- If every new value of the batch already sits in some store record,
the novelty sets are empty. -/
theorem novelty_empty_of_covered (cols : List String)
    (data : List (List Cell)) (store : List MappingRecord)
    (hch : ∀ v, (∃ r ∈ data, rowGet cols r "new_channel" = some v) →
      ∃ m ∈ store, m.new_channel = some v)
    (hcot : ∀ v, (∃ r ∈ data, rowGet cols r "new_cot" = some v) →
      ∃ m ∈ store, m.new_cot = some v) :
    (identify_new_items cols data store).new_channels = []
    ∧ (identify_new_items cols data store).new_cots = [] := by
  constructor
  · simp only [identify_new_items]
    rw [List.filter_eq_nil_iff]
    intro v hv
    have hmem : v ∈ existingNewChannels store :=
      (mem_existingNewChannels store v).mpr
        (hch v ((mem_fileValues cols data "new_channel" v).mp hv))
    simp [contains_iff_mem, hmem]
  · simp only [identify_new_items]
    rw [List.filter_eq_nil_iff]
    intro v hv
    have hmem : v ∈ existingNewCots store :=
      (mem_existingNewCots store v).mpr
        (hcot v ((mem_fileValues cols data "new_cot" v).mp hv))
    simp [contains_iff_mem, hmem]

theorem countP_bool_complement (p : List Cell → Bool) :
    ∀ (l : List (List Cell)),
    l.countP p + l.countP (fun a => !p a) = l.length
  | [] => rfl
  | a :: l => by
      simp only [List.countP_cons, List.length_cons]
      have := countP_bool_complement p l
      by_cases h : p a
      · simp only [h]
        simp
        omega
      · simp only [h]
        simp
        omega

/-- C3 (amended).  Re-ingesting a batch: the second run always has
`rows_inserted = 0` and `rows_updated = total_rows - rows_skipped`
(every non-skipped row now matches a committed record).  The novelty
sets of the second run are moreover empty provided every row of the
batch has a present identity key and no two rows share one; a batch
with a skipped row carrying an otherwise-unseen new value (or with
duplicate keys whose earlier new values were overwritten) re-reports
that value as novel on the second run. -/
theorem claim3_second_run (df : DFrame) (src1 src2 : String)
    (store : List MappingRecord) (res1 res2 : IngestResult)
    (s1 s2 : List MappingRecord)
    (h1 : process_excel_data df src1 store = .ok (res1, s1))
    (h2 : process_excel_data df src2 s1 = .ok (res2, s2)) :
    (res2.records_inserted = 0
      ∧ res2.records_updated = res2.total_records - res2.records_skipped)
    ∧ ((∀ r ∈ df.data, missingKey (normCols df) r = false) →
      df.data.Pairwise (fun a b =>
        rowKey (normCols df) a ≠ rowKey (normCols df) b) →
      res2.new_channels = [] ∧ res2.new_cots = []
        ∧ res2.records_skipped = 0) := by
  simp only [process_excel_data] at h1 h2
  by_cases hcond : (requiredColumns.filter
      (fun c => !(normCols df).contains c)).isEmpty = true
  · rw [if_pos hcond] at h1 h2
    · simp only [Except.ok.injEq, Prod.mk.injEq] at h1 h2
      obtain ⟨hres1, hs1⟩ := h1
      obtain ⟨hres2, hs2⟩ := h2
      subst hs1
      subst hres2
      set cols := normCols df with hcolsdef
      set ni1 := identify_new_items cols df.data store with hni1def
      set st1 := df.data.foldl (processRowUpload ni1 src1 cols)
        (initSt store) with hst1def
      set ni2 := identify_new_items cols df.data (sessionStore st1)
        with hni2def
      set st2 := df.data.foldl (processRowUpload ni2 src2 cols)
        (initSt (sessionStore st1)) with hst2def
      have ei : (initSt (sessionStore st1)).inserted = 0 := rfl
      have eu : (initSt (sessionStore st1)).updated = 0 := rfl
      have es : (initSt (sessionStore st1)).skipped = 0 := rfl
      have hmatched : ∀ r ∈ df.data, missingKey cols r = false →
          hasKey (initSt (sessionStore st1)).base (rowKey cols r)
            = true := by
        intro r hr hv
        exact foldUpload_covers ni1 src1 cols df.data (initSt store) r hr hv
      have hcounts := foldUpload_counts_when_matched ni2 src2 cols df.data
        (initSt (sessionStore st1)) hmatched
      have hskip := foldUpload_skipped ni2 src2 cols df.data
        (initSt (sessionStore st1))
      rw [← hst2def] at hcounts hskip
      rw [ei, eu] at hcounts
      rw [es] at hskip
      have hcomp : df.data.countP (fun r => missingKey cols r)
          + df.data.countP (fun r => !missingKey cols r)
          = df.data.length :=
        countP_bool_complement (fun r => missingKey cols r) df.data
      refine ⟨⟨?_, ?_⟩, ?_⟩
      · exact hcounts.1
      · have hgoal : st2.updated = df.data.length - st2.skipped := by
          omega
        exact hgoal
      · intro hv hdist
        have hcover := foldUpload_witness_of_distinct ni1 src1 cols
          df.data (initSt store) hv hdist
        have hch : ∀ v, (∃ r ∈ df.data,
            rowGet cols r "new_channel" = some v) →
            ∃ m ∈ sessionStore st1, m.new_channel = some v := by
          intro v hex
          obtain ⟨r, hr, hrv⟩ := hex
          obtain ⟨m, hmmem, hw⟩ := hcover r hr
          exact ⟨m, hmmem, hw.2.2.1.trans hrv⟩
        have hcot : ∀ v, (∃ r ∈ df.data,
            rowGet cols r "new_cot" = some v) →
            ∃ m ∈ sessionStore st1, m.new_cot = some v := by
          intro v hex
          obtain ⟨r, hr, hrv⟩ := hex
          obtain ⟨m, hmmem, hw⟩ := hcover r hr
          exact ⟨m, hmmem, hw.2.2.2.1.trans hrv⟩
        have hempty := novelty_empty_of_covered cols df.data
          (sessionStore st1) hch hcot
        have hzero : df.data.countP (fun r => missingKey cols r) = 0 := by
          rw [List.countP_eq_zero]
          intro r hr
          simp [hv r hr]
        refine ⟨hempty.1, hempty.2, ?_⟩
        have hgoal : st2.skipped = 0 := by omega
        exact hgoal
  · rw [if_neg hcond] at h1
    exact absurd h1 (by simp)

/-- Witness for (amended) C3 at the concrete batch `c3df`. -/
theorem claim3_witness :
    c3res2.records_inserted = 0
    ∧ c3res2.records_updated = c3res2.total_records - c3res2.records_skipped
    ∧ c3res2.new_channels = [] ∧ c3res2.new_cots = []
    ∧ c3res2.records_skipped = 0 := by
  have h := claim3_second_run c3df "first.xlsx" "second.xlsx" []
    c3res1 c3res2 c3s1 c3s2 rfl rfl
  have h2 := h.2 (by decide) (by decide)
  exact ⟨h.1.1, h.1.2, h2.1, h2.2.1, h2.2.2⟩

/-- Counterexample to C3 as stated: re-ingesting this batch still
reports Retail as novel on the second run, because the first run skipped
the row and never persisted the value. -/
theorem claim3_counterexample :
    (process_excel_data c3dfSkip "second.xlsx"
        (ingestStore [] (.upload c3dfSkip "first.xlsx"))).map
      (fun p => p.1.new_channels) = .ok ["Retail"]
    ∧ ["Retail"] ≠ ([] : List String) :=
  ⟨rfl, by decide⟩

theorem newChannels_contains (cols : List String)
    (data : List (List Cell)) (store : List MappingRecord) (v : String)
    (hv : ∃ r ∈ data, rowGet cols r "new_channel" = some v)
    (habs : ∀ m ∈ store, m.new_channel ≠ some v) :
    (identify_new_items cols data store).new_channels.contains v = true := by
  rw [contains_iff_mem]
  simp only [identify_new_items, List.mem_filter]
  refine ⟨(mem_fileValues cols data "new_channel" v).mpr hv, ?_⟩
  have hnot : ¬ v ∈ existingNewChannels store := by
    intro hmem
    obtain ⟨m, hm, hv2⟩ := (mem_existingNewChannels store v).mp hmem
    exact habs m hm hv2
  simp [hnot]

theorem newCots_contains (cols : List String)
    (data : List (List Cell)) (store : List MappingRecord) (v : String)
    (hv : ∃ r ∈ data, rowGet cols r "new_cot" = some v)
    (habs : ∀ m ∈ store, m.new_cot ≠ some v) :
    (identify_new_items cols data store).new_cots.contains v = true := by
  rw [contains_iff_mem]
  simp only [identify_new_items, List.mem_filter]
  refine ⟨(mem_fileValues cols data "new_cot" v).mpr hv, ?_⟩
  have hnot : ¬ v ∈ existingNewCots store := by
    intro hmem
    obtain ⟨m, hm, hv2⟩ := (mem_existingNewCots store v).mp hmem
    exact habs m hm hv2
  simp [hnot]

/-- C2.  Novelty is computed once against the pre-batch store, before
any write: if a value V absent from the persisted history appears as the
new_channel (resp. new_cot) of two different rows of the same batch
(rows with present identity keys not repeated elsewhere in the batch),
then after ingesting the batch both resulting records carry
is_new_channel (resp. is_new_cot) = true. -/
theorem claim2_batch_novelty_flags (df : DFrame) (src : String)
    (store : List MappingRecord) (res : IngestResult)
    (s1 : List MappingRecord)
    (h : process_excel_data df src store = .ok (res, s1))
    (i j : Nat) (ri rj : List Cell)
    (hi : df.data[i]? = some ri) (hj : df.data[j]? = some rj)
    (hvi : missingKey (normCols df) ri = false)
    (hvj : missingKey (normCols df) rj = false)
    (hui : ∀ (l : Nat) (x : List Cell), df.data[l]? = some x →
      rowKey (normCols df) x = rowKey (normCols df) ri → l = i)
    (huj : ∀ (l : Nat) (x : List Cell), df.data[l]? = some x →
      rowKey (normCols df) x = rowKey (normCols df) rj → l = j) :
    (∀ v, rowGet (normCols df) ri "new_channel" = some v →
      rowGet (normCols df) rj "new_channel" = some v →
      (∀ m ∈ store, m.new_channel ≠ some v) →
      (∃ m ∈ s1, m.ic_channel = (rowKey (normCols df) ri).1
        ∧ m.ic_cot = (rowKey (normCols df) ri).2 ∧ m.is_new_channel = true)
      ∧ (∃ m ∈ s1, m.ic_channel = (rowKey (normCols df) rj).1
        ∧ m.ic_cot = (rowKey (normCols df) rj).2
        ∧ m.is_new_channel = true))
    ∧ (∀ w, rowGet (normCols df) ri "new_cot" = some w →
      rowGet (normCols df) rj "new_cot" = some w →
      (∀ m ∈ store, m.new_cot ≠ some w) →
      (∃ m ∈ s1, m.ic_channel = (rowKey (normCols df) ri).1
        ∧ m.ic_cot = (rowKey (normCols df) ri).2 ∧ m.is_new_cot = true)
      ∧ (∃ m ∈ s1, m.ic_channel = (rowKey (normCols df) rj).1
        ∧ m.ic_cot = (rowKey (normCols df) rj).2
        ∧ m.is_new_cot = true)) := by
  simp only [process_excel_data] at h
  by_cases hcond : (requiredColumns.filter
      (fun c => !(normCols df).contains c)).isEmpty = true
  · rw [if_pos hcond] at h
    simp only [Except.ok.injEq, Prod.mk.injEq] at h
    obtain ⟨hres, hs1⟩ := h
    subst hs1
    set cols := normCols df with hcolsdef
    set ni := identify_new_items cols df.data store with hnidef
    obtain ⟨mi, hmi, hwi⟩ := foldUpload_witness_of_unique ni src cols
      df.data (initSt store) i ri hi hvi hui
    obtain ⟨mj, hmj, hwj⟩ := foldUpload_witness_of_unique ni src cols
      df.data (initSt store) j rj hj hvj huj
    have hri : ri ∈ df.data := List.mem_iff_getElem?.mpr ⟨i, hi⟩
    have hrj : rj ∈ df.data := List.mem_iff_getElem?.mpr ⟨j, hj⟩
    constructor
    · intro v hvri hvrj habs
      have hflag : ni.new_channels.contains v = true :=
        newChannels_contains cols df.data store v ⟨ri, hri, hvri⟩ habs
      constructor
      · refine ⟨mi, hmi, hwi.1, hwi.2.1, ?_⟩
        rw [hwi.2.2.2.2.1, hvri]
        simpa [noveltyFlag] using hflag
      · refine ⟨mj, hmj, hwj.1, hwj.2.1, ?_⟩
        rw [hwj.2.2.2.2.1, hvrj]
        simpa [noveltyFlag] using hflag
    · intro w hwri hwrj habs
      have hflag : ni.new_cots.contains w = true :=
        newCots_contains cols df.data store w ⟨ri, hri, hwri⟩ habs
      constructor
      · refine ⟨mi, hmi, hwi.1, hwi.2.1, ?_⟩
        rw [hwi.2.2.2.2.2, hwri]
        simpa [noveltyFlag] using hflag
      · refine ⟨mj, hmj, hwj.1, hwj.2.1, ?_⟩
        rw [hwj.2.2.2.2.2, hwrj]
        simpa [noveltyFlag] using hflag
  · rw [if_neg hcond] at h
    exact absurd h (by simp)

/-- Witness for C2: both rows sharing the novel values Retail and RC
yield records flagged novel on both fields. -/
theorem claim2_witness :
    ((∃ m ∈ c2s1, m.ic_channel = some "A" ∧ m.ic_cot = some "B"
        ∧ m.is_new_channel = true)
      ∧ (∃ m ∈ c2s1, m.ic_channel = some "C" ∧ m.ic_cot = some "D"
        ∧ m.is_new_channel = true))
    ∧ ((∃ m ∈ c2s1, m.ic_channel = some "A" ∧ m.ic_cot = some "B"
        ∧ m.is_new_cot = true)
      ∧ (∃ m ∈ c2s1, m.ic_channel = some "C" ∧ m.ic_cot = some "D"
        ∧ m.is_new_cot = true)) := by
  have hui : ∀ (l : Nat) (x : List Cell), c2df.data[l]? = some x →
      rowKey (normCols c2df) x
        = rowKey (normCols c2df)
          [some "A", some "B", some "Retail", some "RC"] → l = 0 := by
    intro l x hx hkey
    match l with
    | 0 => rfl
    | 1 =>
        simp only [c2df, List.getElem?_cons_succ, List.getElem?_cons_zero,
          Option.some.injEq] at hx
        subst hx
        exact absurd hkey (by decide)
    | n + 2 => simp [c2df] at hx
  have huj : ∀ (l : Nat) (x : List Cell), c2df.data[l]? = some x →
      rowKey (normCols c2df) x
        = rowKey (normCols c2df)
          [some "C", some "D", some "Retail", some "RC"] → l = 1 := by
    intro l x hx hkey
    match l with
    | 0 =>
        simp only [c2df, List.getElem?_cons_zero, Option.some.injEq] at hx
        subst hx
        exact absurd hkey (by decide)
    | 1 => rfl
    | n + 2 => simp [c2df] at hx
  have h := claim2_batch_novelty_flags c2df "c2.xlsx" [] c2res c2s1 rfl
    0 1 [some "A", some "B", some "Retail", some "RC"]
    [some "C", some "D", some "Retail", some "RC"]
    rfl rfl rfl rfl hui huj
  have hch := h.1 "Retail" rfl rfl (by intro m hm; cases hm)
  have hcot := h.2 "RC" rfl rfl (by intro m hm; cases hm)
  exact ⟨hch, hcot⟩

theorem sqlEq_true_elim (a b : Cell) (h : sqlEq a b = true) :
    a = b ∧ b.isSome = true := by
  cases a with
  | none => simp [sqlEq] at h
  | some x =>
      cases b with
      | none => simp [sqlEq] at h
      | some y =>
          simp only [sqlEq, beq_iff_eq] at h
          exact ⟨congrArg some h, rfl⟩

/-- The freshly inserted record of a row can only match the key of a row
sharing the same fully-present identity key. -/
theorem mkRecord_fresh (ni : NewItems) (src : String) (cols : List String)
    (r0 x : List Cell) (nc ncot nts : Cell)
    (hcond : validKey (rowKey cols r0) = true →
      validKey (rowKey cols x) = true →
      rowKey cols r0 ≠ rowKey cols x) :
    keyMatches (mkRecord ni src (rowGet cols r0 "ic_channel")
        (rowGet cols r0 "ic_cot") nc ncot nts)
      (rowKey cols x).1 (rowKey cols x).2 = false := by
  cases hkm : keyMatches (mkRecord ni src (rowGet cols r0 "ic_channel")
      (rowGet cols r0 "ic_cot") nc ncot nts)
      (rowKey cols x).1 (rowKey cols x).2
  · rfl
  · exfalso
    have h12 : sqlEq (rowGet cols r0 "ic_channel") (rowKey cols x).1 = true
        ∧ sqlEq (rowGet cols r0 "ic_cot") (rowKey cols x).2 = true := by
      simpa [keyMatches, mkRecord] using hkm
    obtain ⟨e1, s1⟩ := sqlEq_true_elim _ _ h12.1
    obtain ⟨e2, s2⟩ := sqlEq_true_elim _ _ h12.2
    have hvx : validKey (rowKey cols x) = true := by
      simp [validKey, s1, s2]
    have hv0 : validKey (rowKey cols r0) = true := by
      simp only [validKey, rowKey]
      rw [show rowGet cols r0 "ic_channel" = (rowKey cols x).1 from e1,
        show rowGet cols r0 "ic_cot" = (rowKey cols x).2 from e2]
      simp [s1, s2]
    exact hcond hv0 hvx (Prod.ext e1 e2)

/-- The upsert keeps at-most-one-record-per-present-key, provided no
pending record already carries the row's key (pending records are
invisible to the lookup, so a visible duplicate would otherwise slip
in). -/
theorem upsert_preserves_unique (ni : NewItems) (src : String)
    (cols : List String) (st : SessionSt) (r : List Cell)
    (hU : ValidKeyUnique (sessionStore st))
    (hF : ∀ m ∈ st.pending, keyMatches m (rowGet cols r "ic_channel")
      (rowGet cols r "ic_cot") = false) :
    ValidKeyUnique (sessionStore (upsertRow ni src cols st r)) := by
  rcases List.pairwise_append.mp hU with ⟨hBase, hPend, hCross⟩
  simp only [upsertRow]
  split
  · refine List.pairwise_append.mpr ⟨?_, hPend, ?_⟩
    · exact pairwise_updateFirst
        (fun m => keyMatches m (rowGet cols r "ic_channel")
          (rowGet cols r "ic_cot"))
        (overwriteRecord ni src (rowGet cols r "new_channel")
          (rowGet cols r "new_cot") (rowGet cols r "notes"))
        (fun a b hab => hab) (fun a b hab => hab) st.base hBase
    · intro a ha b hb
      rcases mem_updateFirst_cases _ _ st.base a ha with h | ⟨y, hy, _, hay⟩
      · exact hCross a h b hb
      · exact hay ▸ hCross y hy b hb
  · rename_i hc
    have hcAll : ∀ a ∈ st.base, keyMatches a (rowGet cols r "ic_channel")
        (rowGet cols r "ic_cot") = false := by
      intro a ha
      cases hpa : keyMatches a (rowGet cols r "ic_channel")
          (rowGet cols r "ic_cot")
      · rfl
      · exact absurd (List.any_eq_true.mpr ⟨a, ha, hpa⟩) hc
    refine List.pairwise_append.mpr
      ⟨hBase, List.pairwise_append.mpr ⟨hPend, ?_, ?_⟩, ?_⟩
    · simp
    · intro a ha b hb
      rw [List.mem_singleton.mp hb]
      exact hF a ha
    · intro a ha b hb
      rcases List.mem_append.mp hb with h | h
      · exact hCross a ha b h
      · rw [List.mem_singleton.mp h]
        exact hcAll a ha

theorem upsertRow_pending_cases (ni : NewItems) (src : String)
    (cols : List String) (st : SessionSt) (r : List Cell) :
    (upsertRow ni src cols st r).pending = st.pending
    ∨ (upsertRow ni src cols st r).pending
        = st.pending ++ [mkRecord ni src (rowGet cols r "ic_channel")
            (rowGet cols r "ic_cot") (rowGet cols r "new_channel")
            (rowGet cols r "new_cot") (rowGet cols r "notes")] := by
  simp only [upsertRow]
  split
  · exact Or.inl rfl
  · exact Or.inr rfl

theorem foldUpload_preserves_unique (ni : NewItems) (src : String)
    (cols : List String) :
    ∀ (rows : List (List Cell)) (st : SessionSt),
    ValidKeyUnique (sessionStore st) →
    (∀ m ∈ st.pending, ∀ x ∈ rows,
      keyMatches m (rowKey cols x).1 (rowKey cols x).2 = false) →
    rows.Pairwise (fun a b => validKey (rowKey cols a) = true →
      validKey (rowKey cols b) = true → rowKey cols a ≠ rowKey cols b) →
    ValidKeyUnique
      (sessionStore (rows.foldl (processRowUpload ni src cols) st))
  | [], _, hU, _, _ => hU
  | r0 :: rs, st, hU, hF, hdist => by
      rcases List.pairwise_cons.mp hdist with ⟨hhead, hrest⟩
      simp only [List.foldl_cons]
      have hF0 : ∀ m ∈ st.pending, keyMatches m
          (rowGet cols r0 "ic_channel") (rowGet cols r0 "ic_cot")
            = false :=
        fun m hm => hF m hm r0 (List.mem_cons_self r0 rs)
      have hU1 : ValidKeyUnique
          (sessionStore (processRowUpload ni src cols st r0)) := by
        simp only [processRowUpload]
        split
        · exact hU
        · exact upsert_preserves_unique ni src cols st r0 hU hF0
      have hF1 : ∀ m ∈ (processRowUpload ni src cols st r0).pending,
          ∀ x ∈ rs, keyMatches m (rowKey cols x).1 (rowKey cols x).2
            = false := by
        intro m hm x hx
        have hpend : (processRowUpload ni src cols st r0).pending
              = st.pending
            ∨ (processRowUpload ni src cols st r0).pending
              = st.pending ++ [mkRecord ni src
                  (rowGet cols r0 "ic_channel") (rowGet cols r0 "ic_cot")
                  (rowGet cols r0 "new_channel") (rowGet cols r0 "new_cot")
                  (rowGet cols r0 "notes")] := by
          simp only [processRowUpload]
          split
          · exact Or.inl rfl
          · exact upsertRow_pending_cases ni src cols st r0
        rcases hpend with hp | hp
        · rw [hp] at hm
          exact hF m hm x (List.mem_cons_of_mem r0 hx)
        · rw [hp] at hm
          rcases List.mem_append.mp hm with h | h
          · exact hF m h x (List.mem_cons_of_mem r0 hx)
          · rw [List.mem_singleton.mp h]
            exact mkRecord_fresh ni src cols r0 x _ _ _ (hhead x hx)
      exact foldUpload_preserves_unique ni src cols rs
        (processRowUpload ni src cols st r0) hU1 hF1 hrest

theorem foldEmail_preserves_unique (ni : NewItems) (src : String)
    (cols : List String) :
    ∀ (rows : List (List Cell)) (st : SessionSt),
    ValidKeyUnique (sessionStore st) →
    (∀ m ∈ st.pending, ∀ x ∈ rows,
      keyMatches m (rowKey cols x).1 (rowKey cols x).2 = false) →
    rows.Pairwise (fun a b => validKey (rowKey cols a) = true →
      validKey (rowKey cols b) = true → rowKey cols a ≠ rowKey cols b) →
    ValidKeyUnique
      (sessionStore (rows.foldl (processRowEmail ni src cols) st))
  | [], _, hU, _, _ => hU
  | r0 :: rs, st, hU, hF, hdist => by
      rcases List.pairwise_cons.mp hdist with ⟨hhead, hrest⟩
      simp only [List.foldl_cons]
      have hF0 : ∀ m ∈ st.pending, keyMatches m
          (rowGet cols r0 "ic_channel") (rowGet cols r0 "ic_cot")
            = false :=
        fun m hm => hF m hm r0 (List.mem_cons_self r0 rs)
      have hU1 : ValidKeyUnique
          (sessionStore (processRowEmail ni src cols st r0)) :=
        upsert_preserves_unique ni src cols st r0 hU hF0
      have hF1 : ∀ m ∈ (processRowEmail ni src cols st r0).pending,
          ∀ x ∈ rs, keyMatches m (rowKey cols x).1 (rowKey cols x).2
            = false := by
        intro m hm x hx
        rcases upsertRow_pending_cases ni src cols st r0 with hp | hp
        · rw [show (processRowEmail ni src cols st r0).pending
              = (upsertRow ni src cols st r0).pending from rfl, hp] at hm
          exact hF m hm x (List.mem_cons_of_mem r0 hx)
        · rw [show (processRowEmail ni src cols st r0).pending
              = (upsertRow ni src cols st r0).pending from rfl, hp] at hm
          rcases List.mem_append.mp hm with h | h
          · exact hF m h x (List.mem_cons_of_mem r0 hx)
          · rw [List.mem_singleton.mp h]
            exact mkRecord_fresh ni src cols r0 x _ _ _ (hhead x hx)
      exact foldEmail_preserves_unique ni src cols rs
        (processRowEmail ni src cols st r0) hU1 hF1 hrest

theorem sessionStore_initSt (store : List MappingRecord) :
    sessionStore (initSt store) = store := by
  simp [sessionStore, initSt]

/-- Ingesting one batch through either path preserves the present-key
uniqueness invariant when the batch repeats no present identity key. -/
theorem ingestStore_unique (store : List MappingRecord) (b : BatchInput)
    (hU : ValidKeyUnique store) (hdist : BatchKeysDistinct b.frame) :
    ValidKeyUnique (ingestStore store b) := by
  have hU0 : ValidKeyUnique (sessionStore (initSt store)) := by
    rw [sessionStore_initSt]
    exact hU
  cases b with
  | upload df name =>
      simp only [ingestStore]
      cases hp : process_excel_data df name store with
      | error e => exact hU
      | ok p =>
          simp only [process_excel_data] at hp
          by_cases hcond : (requiredColumns.filter
              (fun c => !(normCols df).contains c)).isEmpty = true
          · rw [if_pos hcond] at hp
            simp only [Except.ok.injEq] at hp
            subst hp
            exact foldUpload_preserves_unique _ name (normCols df) df.data
              (initSt store) hU0 (by intro m hm; cases hm) hdist
          · rw [if_neg hcond] at hp
            cases hp
  | emailAtt df name =>
      simp only [ingestStore]
      cases hp : email_process_cot_data df name store with
      | error e => exact hU
      | ok p =>
          simp only [email_process_cot_data] at hp
          by_cases h1 : (normCols df).contains "new_channel"
          · by_cases h2 : (normCols df).contains "new_cot"
            · simp only [h1, h2, Bool.not_true] at hp
              rw [if_neg (by simp), if_neg (by simp)] at hp
              simp only [Except.ok.injEq] at hp
              subst hp
              exact foldEmail_preserves_unique _ name (normCols df) df.data
                (initSt store) hU0 (by intro m hm; cases hm) hdist
            · have h2f : (normCols df).contains "new_cot" = false := by
                simpa using h2
              simp only [h1, h2f, Bool.not_true, Bool.not_false] at hp
              rw [if_pos trivial] at hp
              cases hp
          · have h1f : (normCols df).contains "new_channel" = false := by
              simpa using h1
            simp only [h1f, Bool.not_false] at hp
            rw [if_pos trivial] at hp
            cases hp

theorem runBatchesFrom_unique :
    ∀ (bs : List BatchInput) (store : List MappingRecord),
    ValidKeyUnique store → (∀ b ∈ bs, BatchKeysDistinct b.frame) →
    ValidKeyUnique (bs.foldl ingestStore store)
  | [], _, hU, _ => hU
  | b :: bs, store, hU, hd => by
      simp only [List.foldl_cons]
      exact runBatchesFrom_unique bs (ingestStore store b)
        (ingestStore_unique store b hU (hd b (List.mem_cons_self b bs)))
        (fun x hx => hd x (List.mem_cons_of_mem b hx))

/-- C4 (amended).  After ingesting any sequence of batches through either
path, the store holds at most one record per fully-present
(ic_channel, ic_cot) pair, provided no single batch contains two rows
sharing a present identity key.  (Because the session has autoflush
disabled, the per-row lookup cannot see rows added earlier in the same
batch, so a batch repeating a key inserts duplicates; and the email path
inserts records with null key components unconditionally.) -/
theorem claim4_valid_key_uniqueness (bs : List BatchInput)
    (hdist : ∀ b ∈ bs, BatchKeysDistinct b.frame) :
    ValidKeyUnique (runBatches bs) :=
  runBatchesFrom_unique bs [] List.Pairwise.nil hdist

/-- Counterexample to C4 as stated: one batch with two rows sharing the
identity key (A, B) commits two records with that pair — the query of the
second row cannot see the first row's pending insert because autoflush is
disabled. -/
theorem claim4_counterexample :
    ¬ PairUnique (runBatches [.upload c4df "dup.xlsx"]) := by
  intro h
  cases h with
  | cons hrel htail => exact hrel _ (List.mem_cons_self _ _) ⟨rfl, rfl⟩

/-- Witness for (amended) C4 on a concrete two-batch sequence using both
paths. -/
theorem claim4_witness :
    ValidKeyUnique (runBatches
      [.upload c4dfW1 "one.xlsx", .emailAtt c4dfW2 "two.xlsx"]) :=
  claim4_valid_key_uniqueness
    [.upload c4dfW1 "one.xlsx", .emailAtt c4dfW2 "two.xlsx"]
    (by
      intro b hb
      rcases List.mem_cons.mp hb with h | h
      · subst h
        exact List.pairwise_singleton _ _
      · rcases List.mem_cons.mp h with h2 | h2
        · subst h2
          refine List.Pairwise.cons ?_ (List.pairwise_singleton _ _)
          intro x hx hv1 hv2
          exact absurd hv1 (by decide)
        · cases h2)

theorem upsert_nullflag (ni : NewItems) (src : String)
    (cols : List String) (st : SessionSt) (r : List Cell)
    (h : ∀ m ∈ sessionStore st, NullFlagOk m) :
    ∀ m ∈ sessionStore (upsertRow ni src cols st r), NullFlagOk m := by
  simp only [upsertRow]
  split
  · intro m hm
    rcases List.mem_append.mp hm with hb | hp
    · rcases mem_updateFirst_cases _ _ st.base m hb with h2 | ⟨y, hy, _, hmy⟩
      · exact h m (List.mem_append_left _ h2)
      · subst hmy
        constructor
        · intro hnc
          simp only [overwriteRecord] at hnc ⊢
          rw [hnc]
          rfl
        · intro hnc
          simp only [overwriteRecord] at hnc ⊢
          rw [hnc]
          rfl
    · exact h m (List.mem_append_right _ hp)
  · intro m hm
    rcases List.mem_append.mp hm with hb | hp
    · exact h m (List.mem_append_left _ hb)
    · rcases List.mem_append.mp hp with h2 | h2
      · exact h m (List.mem_append_right _ h2)
      · rw [List.mem_singleton.mp h2]
        constructor
        · intro hnc
          simp only [mkRecord] at hnc ⊢
          rw [hnc]
          rfl
        · intro hnc
          simp only [mkRecord] at hnc ⊢
          rw [hnc]
          rfl

theorem foldUpload_nullflag (ni : NewItems) (src : String)
    (cols : List String) :
    ∀ (rows : List (List Cell)) (st : SessionSt),
    (∀ m ∈ sessionStore st, NullFlagOk m) →
    ∀ m ∈ sessionStore (rows.foldl (processRowUpload ni src cols) st),
      NullFlagOk m
  | [], _, h => h
  | r :: rs, st, h => by
      apply foldUpload_nullflag ni src cols rs
      simp only [processRowUpload]
      split
      · exact h
      · exact upsert_nullflag ni src cols st r h

theorem foldEmail_nullflag (ni : NewItems) (src : String)
    (cols : List String) :
    ∀ (rows : List (List Cell)) (st : SessionSt),
    (∀ m ∈ sessionStore st, NullFlagOk m) →
    ∀ m ∈ sessionStore (rows.foldl (processRowEmail ni src cols) st),
      NullFlagOk m
  | [], _, h => h
  | r :: rs, st, h => by
      apply foldEmail_nullflag ni src cols rs
      exact upsert_nullflag ni src cols st r h

/-- C10.  Null new values are never novel.  (a) A value belongs to the
returned novelty list for a field exactly when some batch row carries it
as a non-null value of that field and no store record already carries it
— nulls are dropped from both the batch side and the history side, so
null never appears in either list.  (b) On both ingestion paths, records
written for rows whose new_channel (resp. new_cot) is null receive
is_new_channel (resp. is_new_cot) = false: ingestion preserves the
invariant that a record with a null new value is unflagged. -/
theorem claim10_null_never_novel (df : DFrame) (src : String)
    (store : List MappingRecord) (v : String) (res : IngestResult)
    (eres : EmailIngestResult) (s1 s2 : List MappingRecord) :
    ((identify_new_items (normCols df) df.data store).new_channels.contains
        v = true ↔
      (∃ r ∈ df.data, rowGet (normCols df) r "new_channel" = some v)
      ∧ ∀ m ∈ store, m.new_channel ≠ some v)
    ∧ ((identify_new_items (normCols df) df.data store).new_cots.contains
        v = true ↔
      (∃ r ∈ df.data, rowGet (normCols df) r "new_cot" = some v)
      ∧ ∀ m ∈ store, m.new_cot ≠ some v)
    ∧ (process_excel_data df src store = .ok (res, s1) →
      (∀ m ∈ store, NullFlagOk m) → ∀ m ∈ s1, NullFlagOk m)
    ∧ (email_process_cot_data df src store = .ok (eres, s2) →
      (∀ m ∈ store, NullFlagOk m) → ∀ m ∈ s2, NullFlagOk m) := by
  refine ⟨?_, ?_, ?_, ?_⟩
  · constructor
    · intro hcont
      rw [contains_iff_mem] at hcont
      simp only [identify_new_items, List.mem_filter] at hcont
      obtain ⟨hf, hnc⟩ := hcont
      refine ⟨(mem_fileValues (normCols df) df.data "new_channel" v).mp hf,
        ?_⟩
      intro m hm heq
      have hmem : v ∈ existingNewChannels store :=
        (mem_existingNewChannels store v).mpr ⟨m, hm, heq⟩
      rw [(contains_iff_mem (existingNewChannels store) v).mpr hmem] at hnc
      simp at hnc
    · intro hx
      exact newChannels_contains (normCols df) df.data store v hx.1 hx.2
  · constructor
    · intro hcont
      rw [contains_iff_mem] at hcont
      simp only [identify_new_items, List.mem_filter] at hcont
      obtain ⟨hf, hnc⟩ := hcont
      refine ⟨(mem_fileValues (normCols df) df.data "new_cot" v).mp hf, ?_⟩
      intro m hm heq
      have hmem : v ∈ existingNewCots store :=
        (mem_existingNewCots store v).mpr ⟨m, hm, heq⟩
      rw [(contains_iff_mem (existingNewCots store) v).mpr hmem] at hnc
      simp at hnc
    · intro hx
      exact newCots_contains (normCols df) df.data store v hx.1 hx.2
  · intro h hstore
    simp only [process_excel_data] at h
    by_cases hcond : (requiredColumns.filter
        (fun c => !(normCols df).contains c)).isEmpty = true
    · rw [if_pos hcond] at h
      simp only [Except.ok.injEq, Prod.mk.injEq] at h
      obtain ⟨-, hs1⟩ := h
      subst hs1
      apply foldUpload_nullflag
      rw [sessionStore_initSt]
      exact hstore
    · rw [if_neg hcond] at h
      cases h
  · intro h hstore
    simp only [email_process_cot_data] at h
    by_cases h1 : (normCols df).contains "new_channel"
    · by_cases h2 : (normCols df).contains "new_cot"
      · simp only [h1, h2, Bool.not_true] at h
        rw [if_neg (by simp), if_neg (by simp)] at h
        simp only [Except.ok.injEq, Prod.mk.injEq] at h
        obtain ⟨-, hs2⟩ := h
        subst hs2
        apply foldEmail_nullflag
        rw [sessionStore_initSt]
        exact hstore
      · have h2f : (normCols df).contains "new_cot" = false := by
          simpa using h2
        simp only [h1, h2f, Bool.not_true, Bool.not_false] at h
        rw [if_pos trivial] at h
        cases h
    · have h1f : (normCols df).contains "new_channel" = false := by
        simpa using h1
      simp only [h1f, Bool.not_false] at h
      rw [if_pos trivial] at h
      cases h

/-- Witness for C10 at the concrete batch `c10df`. -/
theorem claim10_witness :
    NullFlagOk c10rec
    ∧ (identify_new_items (normCols c10df) c10df.data []).new_cots.contains
        "D" = true := by
  have h := claim10_null_never_novel c10df "c10.xlsx" [] "D" c10res c10eres
    c10s1 c10s2
  constructor
  · exact h.2.2.1 rfl (by intro m hm; cases hm) c10rec (by decide)
  · exact h.2.1.mpr ⟨by decide, by intro m hm; cases hm⟩

end CoT
